import Mathlib

set_option maxRecDepth 10000

/-!
Verification of the kawaii-san.org static site generator (`generate.js`).

Strings are modelled as `List Char`.  The pieces embedded from the source:

* `calculateReadingTime`  — `generate.js` lines 57-61
* `formatDisplayDate`     — `generate.js` lines 63-66 (locale formatting
  modelled concretely for well-formed `YYYY-MM-DD` inputs)
* the date/URL derivations — `generate.js` lines 100-106
* the frontmatter presence check — `generate.js` lines 89-94
* the placeholder map and substitution loop — `generate.js` lines 108-123,
  where `String.prototype.replace` with a string replacement argument is
  modelled faithfully, including the ECMAScript GetSubstitution treatment
  of dollar sequences in the replacement value
* the custom marked renderer — `generate.js` lines 14-52, modelled as a
  fold over block-level tokens carrying pre-rendered inline content
-/

namespace Kawaii

/-- JavaScript whitespace test used by `trim` and the word split. -/
def isWs (c : Char) : Bool := c.isWhitespace

/-- Remove trailing whitespace (structural model of the right half of
`String.prototype.trim`). -/
def trimR : List Char → List Char
  | [] => []
  | c :: rest => if trimR rest = [] ∧ isWs c then [] else c :: trimR rest

/-- `String.prototype.trim`: drop leading then trailing whitespace. -/
def jsTrim (s : List Char) : List Char := trimR (s.dropWhile isWs)

/-- Number of maximal runs of non-whitespace characters, via a flag
recording whether we are inside a run. -/
def countRunsAux : Bool → List Char → Nat
  | _, [] => 0
  | inWord, c :: rest =>
    if isWs c then countRunsAux false rest
    else (if inWord then 0 else 1) + countRunsAux true rest

/-- Number of whitespace-separated tokens of a string. -/
def countRuns (s : List Char) : Nat := countRunsAux false s

/-- `text.trim().split(/\s+/).length` from `generate.js` line 59.  For a
whitespace-only string JavaScript `split` returns a singleton list holding
the empty string, hence length 1. -/
def jsWordCount (s : List Char) : Nat :=
  if jsTrim s = [] then 1 else countRuns (jsTrim s)

/-- `calculateReadingTime` (`generate.js` lines 57-61):
`Math.ceil(words / 200)` over naturals is `(words + 199) / 200`. -/
def calculateReadingTime (s : List Char) : Nat :=
  (jsWordCount s + 199) / 200

/-- `metadata.date.split('-')` — JavaScript `split` with a one-character
separator; accumulator holds the current field reversed. -/
def splitOnDashAux : List Char → List Char → List (List Char)
  | acc, [] => [acc.reverse]
  | acc, c :: rest =>
    if c = '-' then acc.reverse :: splitOnDashAux [] rest
    else splitOnDashAux (c :: acc) rest

def splitOnDash (s : List Char) : List (List Char) := splitOnDashAux [] s

/-- `.join('-')` over the split fields. -/
def joinWith (sep : List Char) : List (List Char) → List Char
  | [] => []
  | [s] => s
  | s :: rest => s ++ sep ++ joinWith sep rest

/-- `generate.js` line 102: `metadata.date.split('-').reverse().join('-')`. -/
def dateForPath (date : List Char) : List Char :=
  joinWith ['-'] (splitOnDash date).reverse

/-- `generate.js` line 104. -/
def postUrl (date : List Char) : List Char :=
  "/posts/".data ++ dateForPath date ++ "/".data

/-- `generate.js` line 105. -/
def thumbnailUrl (date : List Char) : List Char :=
  "/assets/images/thumbnails/".data ++ dateForPath date ++ ".webp".data

/-- `generate.js` line 106. -/
def bannerUrl (date : List Char) : List Char :=
  "/assets/images/banners/".data ++ dateForPath date ++ ".png".data

/-!
### The templater: `template.replace(regex, value)` (`generate.js` 120-123)

The regular expression is built from a placeholder key by escaping `[` and
`]` (line 121); the nine keys contain no other regex metacharacters, so the
compiled pattern matches exactly the literal key text.  The replacement
argument is a plain string, so ECMAScript GetSubstitution applies to it:
`$$`, `$&`, `$` + backquote and `$` + quote are special; with zero capture
groups every other dollar sequence stays literal.
-/

/-- ECMAScript GetSubstitution for a regex with no capture groups.
`m` is the matched text, `b` the part of the subject before the match,
`a` the part after. -/
def getSubst (m b a : List Char) : List Char → List Char
  | [] => []
  | c :: r =>
    if c = '$' then
      match r with
      | [] => ['$']
      | c2 :: r2 =>
        if c2 = '$' then '$' :: getSubst m b a r2
        else if c2 = '&' then m ++ getSubst m b a r2
        else if c2 = Char.ofNat 96 then b ++ getSubst m b a r2
        else if c2 = Char.ofNat 39 then a ++ getSubst m b a r2
        else '$' :: c2 :: getSubst m b a r2
    else c :: getSubst m b a r

/-- One global-replace pass, scanning left to right; the replacement text
is never rescanned.  `pre` is the already-consumed part of the original
subject (needed by the dollar-backquote form).  Fuel equals the subject
length, which bounds the number of scanning steps. -/
def jsReplaceAux (pat rep : List Char) : Nat → List Char → List Char → List Char
  | 0, _, s => s
  | _ + 1, _, [] => []
  | n + 1, pre, c :: rest =>
    if pat ≠ [] ∧ pat.isPrefixOf (c :: rest) then
      getSubst pat pre (List.drop pat.length (c :: rest)) rep ++
        jsReplaceAux pat rep n (pre ++ pat) (List.drop pat.length (c :: rest))
    else
      c :: jsReplaceAux pat rep n (pre ++ [c]) rest

/-- `subject.replace(new RegExp(escapedKey, 'g'), rep)`. -/
def jsReplace (pat rep s : List Char) : List Char :=
  jsReplaceAux pat rep s.length [] s

/-- The same global replace with the replacement inserted verbatim; agrees
with `jsReplace` whenever the replacement contains no dollar sign. -/
def replaceAllAux (pat rep : List Char) : Nat → List Char → List Char
  | 0, s => s
  | _ + 1, [] => []
  | n + 1, c :: rest =>
    if pat ≠ [] ∧ pat.isPrefixOf (c :: rest) then
      rep ++ replaceAllAux pat rep n (List.drop pat.length (c :: rest))
    else
      c :: replaceAllAux pat rep n rest

def replaceAll (pat rep s : List Char) : List Char :=
  replaceAllAux pat rep s.length s

/-- Whether `pat` occurs as a contiguous substring of `s`. -/
def hasOccur (pat : List Char) : List Char → Bool
  | [] => pat.isEmpty
  | c :: rest => pat.isPrefixOf (c :: rest) || hasOccur pat rest

/-- Interior of a placeholder token: bracket-free characters ending in a
closing bracket. -/
def innerOk : List Char → Bool
  | [] => false
  | [c] => c = ']'
  | c :: rest => c ≠ '[' && c ≠ ']' && innerOk rest

/-- A placeholder token shape: an opening bracket, bracket-free interior,
a closing bracket.  All nine keys of the placeholder map have this shape. -/
def bracketedB : List Char → Bool
  | [] => false
  | c :: rest => c = '[' && innerOk rest

/-!
### Frontmatter metadata and the presence check (`generate.js` 87-94)
-/

/-- A YAML frontmatter value as JavaScript sees it. -/
inductive JSVal
  | str (s : List Char)
  | num (n : Int)
  | bool (b : Bool)
  | null
deriving DecidableEq

/-- JavaScript truthiness of a frontmatter value. -/
def truthy : JSVal → Bool
  | JSVal.str s => !s.isEmpty
  | JSVal.num n => n ≠ 0
  | JSVal.bool b => b
  | JSVal.null => false

/-- `String(value)` coercion used when a non-string lands in the template. -/
def jsToString : JSVal → List Char
  | JSVal.str s => s
  | JSVal.num n => (toString n).data
  | JSVal.bool b => if b then "true".data else "false".data
  | JSVal.null => "null".data

/-- The five field names the generator inspects (`generate.js` line 89). -/
inductive Field
  | id | title | date | category | excerpt
deriving DecidableEq

/-- `requiredFields` in source order (`generate.js` line 89). -/
def requiredFields : List Field :=
  [Field.id, Field.title, Field.date, Field.category, Field.excerpt]

/-- Parsed frontmatter attributes; an absent property is `none`. -/
structure Metadata where
  id : Option JSVal
  title : Option JSVal
  date : Option JSVal
  category : Option JSVal
  excerpt : Option JSVal
deriving DecidableEq

/-- `metadata[field]` property access. -/
def fieldVal (md : Metadata) : Field → Option JSVal
  | Field.id => md.id
  | Field.title => md.title
  | Field.date => md.date
  | Field.category => md.category
  | Field.excerpt => md.excerpt

/-- The JavaScript test `!metadata[field]`: absent or falsy. -/
def jsFalsy : Option JSVal → Bool
  | none => true
  | some v => !truthy v

/-- `requiredFields.filter(field => !metadata[field])` (line 90). -/
def missingFields (md : Metadata) : List Field :=
  requiredFields.filter (fun f => jsFalsy (fieldVal md f))

/-- `String(metadata[field])`; an absent property stringifies to
`undefined` in JavaScript. -/
def optVal : Option JSVal → List Char
  | none => "undefined".data
  | some v => jsToString v

/-!
### Display date (`generate.js` 63-66)

`formatDisplayDate` builds `new Date(iso).toLocaleString('en-US', ...)`
with UTC: for a well-formed `YYYY-MM-DD` input this is the short month
name, the day without leading zeros, a comma, and the year.  The locale
machinery itself is outside the embedding; the function below computes
that same string concretely.
-/

def monthShort (m : List Char) : List Char :=
  if m = "01".data then "Jan".data
  else if m = "02".data then "Feb".data
  else if m = "03".data then "Mar".data
  else if m = "04".data then "Apr".data
  else if m = "05".data then "May".data
  else if m = "06".data then "Jun".data
  else if m = "07".data then "Jul".data
  else if m = "08".data then "Aug".data
  else if m = "09".data then "Sep".data
  else if m = "10".data then "Oct".data
  else if m = "11".data then "Nov".data
  else if m = "12".data then "Dec".data
  else "Invalid".data

def stripZeros (s : List Char) : List Char :=
  match s.dropWhile (fun c => c = '0') with
  | [] => ['0']
  | r => r

def formatDisplayDate (iso : List Char) : List Char :=
  match splitOnDash iso with
  | [y, m, d] => monthShort m ++ (' ' :: stripZeros d) ++ (',' :: ' ' :: y)
  | _ => "Invalid Date".data

/-!
### The placeholder map and the substitution loop (`generate.js` 96-123)

The map entries appear in `Object.entries` insertion order.  The body's
Markdown-to-HTML conversion (`marked.parse(body)`) is a full Markdown
parser and enters the map as an explicit argument `htmlContent`; the
custom block renderer it is configured with is modelled separately below.
-/

def buildReplacements (md : Metadata) (body htmlContent : List Char) :
    List (List Char × List Char) :=
  [ ("[POST_TITLE]".data, optVal md.title),
    ("[YYYY-MM-DD]".data, optVal md.date),
    ("[POST_DATE_FORMATTED]".data, formatDisplayDate (optVal md.date)),
    ("[CATEGORY]".data, optVal md.category),
    ("[EXCERPT]".data, optVal md.excerpt),
    ("[READING_TIME]".data, (toString (calculateReadingTime body)).data),
    ("[CONVERTED_HTML_CONTENT]".data, htmlContent),
    ("[POST_URL]".data, postUrl (optVal md.date)),
    ("[BANNER_URL]".data, bannerUrl (optVal md.date)) ]

/-- The `for (const [placeholder, value] of Object.entries(...))` loop. -/
def applyReplacements (template : List Char)
    (reps : List (List Char × List Char)) : List Char :=
  reps.foldl (fun acc p => jsReplace p.1 p.2 acc) template

/-- The same loop processing the map entries in an explicitly given key
order (indices into the entry list). -/
def applyOrder (reps : List (List Char × List Char)) (order : List Nat)
    (template : List Char) : List Char :=
  order.foldl
    (fun acc j => jsReplace (reps.getD j ([], [])).1 (reps.getD j ([], [])).2 acc)
    template

/-!
### Structured templates

A template made of literal segments (containing no opening bracket) and
placeholder tokens, used to state order-independence of the substitution
loop.  `done i` records whether key `i` has already been substituted.
-/

inductive Chunk
  | lit (s : List Char)
  | key (i : Nat)
deriving DecidableEq

/-- Well-formedness of a chunk against a map of `n` entries. -/
def chunkOkB (n : Nat) : Chunk → Bool
  | Chunk.lit s => !s.contains '['
  | Chunk.key i => i < n

/-- Current text of a chunk: the key token if not yet substituted, its
replacement value afterwards. -/
def chunkText (reps : List (List Char × List Char)) (done : Nat → Bool) :
    Chunk → List Char
  | Chunk.lit s => s
  | Chunk.key i => if done i then (reps.getD i ([], [])).2 else (reps.getD i ([], [])).1

/-- Concatenation of the chunk texts. -/
def assemble (reps : List (List Char × List Char)) (done : Nat → Bool) :
    List Chunk → List Char
  | [] => []
  | c :: cs => chunkText reps done c ++ assemble reps done cs

/-- Mark key `j` as substituted. -/
def setDone (j : Nat) (done : Nat → Bool) : Nat → Bool :=
  fun i => if i = j then true else done i

/-- Outcome of a generator run on already-loaded file contents. -/
inductive GenResult
  | error (missing : List Field)
  | ok (document : List Char)
deriving DecidableEq

/-- `runGenerator` after the two files are read (`generate.js` 87-126):
validate frontmatter presence, then substitute into the template.
Rendering of `body` to `htmlContent` is the explicit argument. -/
def generate (md : Metadata) (body htmlContent template : List Char) :
    GenResult :=
  if missingFields md = [] then
    GenResult.ok (applyReplacements template (buildReplacements md body htmlContent))
  else
    GenResult.error (missingFields md)

/-!
### The custom marked renderer (`generate.js` 14-52)

Block-level tokens carry their inline content already rendered to markup
(`this.parser.parseInline(token.tokens)` is the upstream inline pass).
The only cross-token state is the module-level `colorIndex`, threaded
explicitly here; `runGenerator` resets it to 0 before each pass
(line 74).
-/

/-- The fixed palette (`generate.js` 14-19). -/
def headingColors : List (List Char) :=
  [ "text-kawaii-pink".data,
    "text-kawaii-blue".data,
    "text-kawaii-mint".data,
    "text-kawaii-lavender".data ]

/-- A block-level token; inline content is pre-rendered markup. -/
inductive Tok
  | heading (depth : Nat) (inline : List Char)
  | paragraph (inline : List Char)
  | hr
  | blockquote (inner : List Char)
deriving DecidableEq

/-- The colored `h2` markup of `generate.js` line 28. -/
def h2Html (colorClass inline : List Char) : List Char :=
  "<h2 class=\"text-3xl font-bold mt-12 mb-6 ".data ++ colorClass ++
    "\">".data ++ inline ++ "</h2>\n".data

/-- marked's default heading markup, used when the custom rule declines
(depth other than 2, `generate.js` lines 30-31). -/
def defaultHeading (depth : Nat) (inline : List Char) : List Char :=
  "<h".data ++ (toString depth).data ++ ">".data ++ inline ++
    "</h".data ++ (toString depth).data ++ ">\n".data

/-- The image-wrapper marker the paragraph rule looks for
(`generate.js` line 35). -/
def imgMarker : List Char := "<div class=\"my-8 flex justify-center\">".data

/-- `renderer.image` (`generate.js` 46-51), whitespace exactly as in the
source template literal. -/
def renderImage (href text : List Char) : List Char :=
  imgMarker ++ "\n            <img src=\"".data ++ href ++
    "\" alt=\"".data ++ text ++
    "\" class=\"w-full max-w-3xl rounded-lg shadow-lg\" />\n        </div>\n".data

/-- `renderer.paragraph` (`generate.js` 33-39). -/
def renderParagraph (inline : List Char) : List Char :=
  if imgMarker.isPrefixOf (jsTrim inline) then inline
  else "<p class=\"mb-6\">".data ++ inline ++ "</p>\n".data

/-- `renderer.blockquote` (`generate.js` 43-45). -/
def renderBlockquote (inner : List Char) : List Char :=
  "<div class=\"bg-gray-800 p-6 rounded-lg my-8 border-l-4 border-kawaii-pink\">".data
    ++ inner ++ "</div>\n".data

/-- Render one token under a color counter, returning the markup and the
new counter (`generate.js` 23-52). -/
def renderTok : Tok → Nat → List Char × Nat
  | Tok.heading d inline, c =>
    if d = 2 then (h2Html (headingColors.getD c []) inline, (c + 1) % headingColors.length)
    else (defaultHeading d inline, c)
  | Tok.paragraph inline, c => (renderParagraph inline, c)
  | Tok.hr, c => ([], c)
  | Tok.blockquote q, c => (renderBlockquote q, c)

/-- Render a token sequence, concatenating output in document order and
threading the color counter. -/
def renderDoc : List Tok → Nat → List Char × Nat
  | [], c => ([], c)
  | t :: ts, c =>
    ((renderTok t c).1 ++ (renderDoc ts (renderTok t c).2).1,
      (renderDoc ts (renderTok t c).2).2)

/-- One top-level render pass: `runGenerator` resets `colorIndex` to 0
(`generate.js` line 74) and then parses, so the pass ignores whatever the
global counter held before. -/
def runPass (ts : List Tok) (_globalBefore : Nat) : List Char × Nat :=
  renderDoc ts 0

/-- Whether a token is a depth-2 heading. -/
def isH2 : Tok → Bool
  | Tok.heading d _ => d = 2
  | _ => false

/-- Number of depth-2 headings in a token list. -/
def countH2 (ts : List Tok) : Nat := ts.countP isH2

/-!
## Lemmas about the substitution scan
-/

theorem isPrefixOf_append_self (p t : List Char) : p.isPrefixOf (p ++ t) = true := by
  induction p with
  | nil => simp [List.isPrefixOf]
  | cons c p ih => simp [List.isPrefixOf, ih]

theorem replaceAllAux_congr (pat rep : List Char) :
    ∀ n m : Nat, ∀ s : List Char, s.length ≤ n → s.length ≤ m →
      replaceAllAux pat rep n s = replaceAllAux pat rep m s := by
  intro n
  induction n with
  | zero =>
    intro m s hs _
    have : s = [] := List.eq_nil_of_length_eq_zero (Nat.le_zero.mp hs)
    subst this
    cases m <;> rfl
  | succ n ih =>
    intro m s hs hm
    cases s with
    | nil => cases m <;> rfl
    | cons c rest =>
      cases m with
      | zero => simp at hm
      | succ m' =>
        simp only [replaceAllAux]
        by_cases h : pat ≠ [] ∧ pat.isPrefixOf (c :: rest)
        · simp only [if_pos h]
          have hp : 1 ≤ pat.length := by
            cases hq : pat with
            | nil => exact absurd hq h.1
            | cons a b => simp
          have hlen : (List.drop pat.length (c :: rest)).length ≤ n := by
            simp only [List.length_drop, List.length_cons]
            simp only [List.length_cons] at hs
            omega
          have hlen' : (List.drop pat.length (c :: rest)).length ≤ m' := by
            simp only [List.length_drop, List.length_cons]
            simp only [List.length_cons] at hm
            omega
          rw [ih m' _ hlen hlen']
        · simp only [if_neg h]
          have h1 : rest.length ≤ n := by
            simp only [List.length_cons] at hs; omega
          have h2 : rest.length ≤ m' := by
            simp only [List.length_cons] at hm; omega
          rw [ih m' rest h1 h2]

theorem replaceAllAux_fuel (pat rep : List Char) (n : Nat) (s : List Char)
    (h : s.length ≤ n) : replaceAllAux pat rep n s = replaceAll pat rep s :=
  replaceAllAux_congr pat rep n s.length s h (Nat.le_refl _)

theorem getSubst_no_dollar (m b a : List Char) :
    ∀ r : List Char, '$' ∉ r → getSubst m b a r = r := by
  intro r
  induction r with
  | nil => intro _; rfl
  | cons c r ih =>
    intro h
    rw [List.mem_cons] at h
    push_neg at h
    have hc : ¬ c = '$' := fun hh => h.1 hh.symm
    rw [getSubst.eq_def]
    simp [hc, ih h.2]

theorem jsReplaceAux_eq_replaceAllAux (pat rep : List Char) (hrep : '$' ∉ rep) :
    ∀ n : Nat, ∀ pre s : List Char,
      jsReplaceAux pat rep n pre s = replaceAllAux pat rep n s := by
  intro n
  induction n with
  | zero => intro pre s; rfl
  | succ n ih =>
    intro pre s
    cases s with
    | nil => rfl
    | cons c rest =>
      simp only [jsReplaceAux, replaceAllAux]
      by_cases h : pat ≠ [] ∧ pat.isPrefixOf (c :: rest)
      · simp only [if_pos h, getSubst_no_dollar _ _ _ rep hrep, ih]
      · simp only [if_neg h, ih]

theorem jsReplace_eq_replaceAll (pat rep s : List Char) (hrep : '$' ∉ rep) :
    jsReplace pat rep s = replaceAll pat rep s :=
  jsReplaceAux_eq_replaceAllAux pat rep hrep s.length [] s

theorem replaceAll_cons_neg (pat rep : List Char) (c : Char) (t : List Char)
    (h : ¬ (pat ≠ [] ∧ pat.isPrefixOf (c :: t))) :
    replaceAll pat rep (c :: t) = c :: replaceAll pat rep t := by
  simp only [replaceAll, List.length_cons, replaceAllAux, if_neg h]

theorem replaceAll_head_match (pat rep t : List Char) (hpat : pat ≠ []) :
    replaceAll pat rep (pat ++ t) = rep ++ replaceAll pat rep t := by
  cases pat with
  | nil => exact absurd rfl hpat
  | cons a p =>
    have hcond : (a :: p) ≠ [] ∧ (a :: p).isPrefixOf (a :: (p ++ t)) = true :=
      ⟨List.cons_ne_nil a p, isPrefixOf_append_self (a :: p) t⟩
    simp only [replaceAll, List.cons_append, List.length_cons, replaceAllAux]
    simp only [List.append_eq]
    rw [if_pos hcond]
    have hdrop : List.drop (p.length + 1) (a :: (p ++ t)) = t :=
      List.drop_left (a :: p) t
    rw [hdrop]
    congr 1
    exact replaceAllAux_fuel (a :: p) rep _ t (by simp)

theorem replaceAll_lit (pat rep : List Char) (hpat : pat.head? = some '[') :
    ∀ x t : List Char, '[' ∉ x → replaceAll pat rep (x ++ t) = x ++ replaceAll pat rep t := by
  intro x
  induction x with
  | nil => intro t _; simp
  | cons c x ih =>
    intro t hx
    rw [List.mem_cons] at hx
    push_neg at hx
    have hpre : pat.isPrefixOf (c :: (x ++ t)) = false := by
      cases hq : pat with
      | nil => rw [hq] at hpat; simp at hpat
      | cons a p =>
        rw [hq] at hpat
        simp only [List.head?] at hpat
        have ha : a = '[' := by injection hpat
        have hc : ¬ (a == c) = true := by
          rw [ha, beq_iff_eq]
          exact hx.1
        simp [List.isPrefixOf, hc]
    have hcond : ¬ (pat ≠ [] ∧ pat.isPrefixOf (c :: (x ++ t))) := by
      intro hcon
      rw [hpre] at hcon
      exact absurd hcon.2 (by simp)
    rw [List.cons_append, replaceAll_cons_neg pat rep c (x ++ t) hcond, ih t hx.2]
    simp

theorem jsReplaceAux_no_occur (pat rep : List Char) :
    ∀ s : List Char, hasOccur pat s = false →
      ∀ (n : Nat) (pre : List Char), jsReplaceAux pat rep n pre s = s := by
  intro s
  induction s with
  | nil => intro _ n pre; cases n <;> rfl
  | cons c rest ih =>
    intro h n pre
    have h' : pat.isPrefixOf (c :: rest) = false ∧ hasOccur pat rest = false := by
      simpa [hasOccur] using h
    cases n with
    | zero => rfl
    | succ n =>
      simp only [jsReplaceAux]
      have hcond : ¬ (pat ≠ [] ∧ pat.isPrefixOf (c :: rest)) := by
        intro hcon
        rw [h'.1] at hcon
        exact absurd hcon.2 (by simp)
      rw [if_neg hcond, ih h'.2 n (pre ++ [c])]

theorem jsReplace_no_occur (pat rep s : List Char) (h : hasOccur pat s = false) :
    jsReplace pat rep s = s :=
  jsReplaceAux_no_occur pat rep s h s.length []

theorem hasOccur_bracket_free (pat : List Char) (hpat : pat.head? = some '[') :
    ∀ s : List Char, '[' ∉ s → hasOccur pat s = false := by
  intro s
  induction s with
  | nil =>
    intro _
    cases hq : pat with
    | nil => rw [hq] at hpat; simp at hpat
    | cons a p => simp [hasOccur, List.isEmpty]
  | cons c rest ih =>
    intro h
    rw [List.mem_cons] at h
    push_neg at h
    have hpre : pat.isPrefixOf (c :: rest) = false := by
      cases hq : pat with
      | nil => rw [hq] at hpat; simp at hpat
      | cons a p =>
        rw [hq] at hpat
        simp only [List.head?] at hpat
        have ha : a = '[' := by injection hpat
        have hc : ¬ (a == c) = true := by
          rw [ha, beq_iff_eq]
          exact h.1
        simp [List.isPrefixOf, hc]
    simp [hasOccur, hpre, ih h.2]

theorem innerOk_spec : ∀ r : List Char, innerOk r = true →
    ∃ inner, r = inner ++ [']'] ∧ '[' ∉ inner ∧ ']' ∉ inner := by
  intro r
  induction r with
  | nil => intro h; simp [innerOk] at h
  | cons c rest ih =>
    intro h
    cases rest with
    | nil =>
      have hc : c = ']' := by simpa [innerOk] using h
      exact ⟨[], by simp [hc], by simp, by simp⟩
    | cons c2 rest2 =>
      have h' : (¬ c = '[' ∧ ¬ c = ']') ∧ innerOk (c2 :: rest2) = true := by
        simpa [innerOk, Bool.and_eq_true, decide_eq_true_iff] using h
      obtain ⟨inner, heq, h1, h2⟩ := ih h'.2
      refine ⟨c :: inner, by simp [heq], ?_, ?_⟩
      · rw [List.mem_cons]
        push_neg
        exact ⟨fun hh => h'.1.1 hh.symm, h1⟩
      · rw [List.mem_cons]
        push_neg
        exact ⟨fun hh => h'.1.2 hh.symm, h2⟩

theorem bracketedB_spec (k : List Char) (h : bracketedB k = true) :
    ∃ inner, k = '[' :: (inner ++ [']']) ∧ '[' ∉ inner ∧ ']' ∉ inner := by
  cases k with
  | nil => simp [bracketedB] at h
  | cons c rest =>
    have h' : c = '[' ∧ innerOk rest = true := by
      simpa [bracketedB, Bool.and_eq_true, decide_eq_true_iff] using h
    obtain ⟨inner, heq, h1, h2⟩ := innerOk_spec rest h'.2
    exact ⟨inner, by rw [h'.1, heq], h1, h2⟩

theorem bracketedB_ne_nil (k : List Char) (h : bracketedB k = true) : k ≠ [] := by
  obtain ⟨inner, heq, _, _⟩ := bracketedB_spec k h
  rw [heq]
  simp

theorem bracketedB_head (k : List Char) (h : bracketedB k = true) :
    k.head? = some '[' := by
  obtain ⟨inner, heq, _, _⟩ := bracketedB_spec k h
  rw [heq]
  rfl

theorem prefix_bracket_eq :
    ∀ a b r : List Char, ']' ∉ a → ']' ∉ b →
      (a ++ [']']).isPrefixOf (b ++ ']' :: r) = true → a = b := by
  intro a
  induction a with
  | nil =>
    intro b r _ hb h
    cases b with
    | nil => rfl
    | cons x b' =>
      rw [List.mem_cons] at hb
      push_neg at hb
      simp only [List.nil_append, List.cons_append, List.isPrefixOf,
        Bool.and_eq_true, beq_iff_eq] at h
      exact absurd h.1 hb.1
  | cons c a' ih =>
    intro b r ha hb h
    rw [List.mem_cons] at ha
    push_neg at ha
    cases b with
    | nil =>
      simp only [List.cons_append, List.nil_append, List.isPrefixOf,
        Bool.and_eq_true, beq_iff_eq] at h
      exact absurd h.1 (fun hh => ha.1 hh.symm)
    | cons x b' =>
      rw [List.mem_cons] at hb
      push_neg at hb
      simp only [List.cons_append, List.isPrefixOf, Bool.and_eq_true,
        beq_iff_eq] at h
      rw [h.1, ih b' r ha.2 hb.2 h.2]

theorem replaceAll_other_key (k v k' : List Char) (hk : bracketedB k = true)
    (hk' : bracketedB k' = true) (hne : k ≠ k') (t : List Char) :
    replaceAll k v (k' ++ t) = k' ++ replaceAll k v t := by
  obtain ⟨a, hka, ha1, ha2⟩ := bracketedB_spec k hk
  obtain ⟨b, hkb, hb1, hb2⟩ := bracketedB_spec k' hk'
  have hpre : k.isPrefixOf ('[' :: ((b ++ [']']) ++ t)) = false := by
    cases hp : k.isPrefixOf ('[' :: ((b ++ [']']) ++ t)) with
    | false => rfl
    | true =>
      exfalso
      rw [hka] at hp
      have hstep : (a ++ [']']).isPrefixOf (b ++ ']' :: t) = true := by
        have hp' := hp
        simp only [List.isPrefixOf, Bool.and_eq_true, beq_iff_eq,
          List.append_assoc, List.singleton_append] at hp'
        exact hp'.2
      exact hne (by rw [hka, hkb, prefix_bracket_eq a b t ha2 hb2 hstep])
  have hcond : ¬ (k ≠ [] ∧ k.isPrefixOf ('[' :: ((b ++ [']']) ++ t))) := by
    intro hcon
    rw [hpre] at hcon
    exact absurd hcon.2 (by simp)
  have hx : '[' ∉ b ++ [']'] := by
    rw [List.mem_append]
    push_neg
    exact ⟨hb1, by simp⟩
  calc replaceAll k v (k' ++ t)
      = replaceAll k v ('[' :: ((b ++ [']']) ++ t)) := by rw [hkb]; simp
    _ = '[' :: replaceAll k v ((b ++ [']']) ++ t) :=
        replaceAll_cons_neg k v '[' ((b ++ [']']) ++ t) hcond
    _ = '[' :: ((b ++ [']']) ++ replaceAll k v t) :=
        congrArg _ (replaceAll_lit k v (bracketedB_head k hk) (b ++ [']']) t hx)
    _ = k' ++ replaceAll k v t := by rw [hkb]; simp

theorem replaceAll_no_occur (pat rep : List Char) :
    ∀ s : List Char, hasOccur pat s = false → replaceAll pat rep s = s := by
  intro s
  induction s with
  | nil => intro _; rfl
  | cons c rest ih =>
    intro h
    have h' : pat.isPrefixOf (c :: rest) = false ∧ hasOccur pat rest = false := by
      simpa [hasOccur] using h
    have hcond : ¬ (pat ≠ [] ∧ pat.isPrefixOf (c :: rest)) := by
      intro hcon
      rw [h'.1] at hcon
      exact absurd hcon.2 (by simp)
    rw [replaceAll_cons_neg pat rep c rest hcond, ih h'.2]

theorem replaceAll_joinWith (pat v : List Char) (hpat : bracketedB pat = true) :
    ∀ ss : List (List Char), (∀ s ∈ ss, '[' ∉ s) →
      replaceAll pat v (joinWith pat ss) = joinWith v ss := by
  intro ss
  induction ss with
  | nil => intro _; rfl
  | cons s rest ih =>
    intro hss
    cases rest with
    | nil =>
      show replaceAll pat v s = s
      exact replaceAll_no_occur pat v s
        (hasOccur_bracket_free pat (bracketedB_head pat hpat) s
          (hss s (List.mem_cons_self s [])))
    | cons s2 rest2 =>
      have h1 : joinWith pat (s :: s2 :: rest2) = s ++ (pat ++ joinWith pat (s2 :: rest2)) := by
        simp [joinWith]
      have h2 : joinWith v (s :: s2 :: rest2) = s ++ (v ++ joinWith v (s2 :: rest2)) := by
        simp [joinWith]
      rw [h1, h2,
        replaceAll_lit pat v (bracketedB_head pat hpat) s _
          (hss s (List.mem_cons_self s _)),
        replaceAll_head_match pat v _ (bracketedB_ne_nil pat hpat),
        ih (fun x hx => hss x (List.mem_cons_of_mem s hx))]

/-!
## Lemmas about structured templates
-/

theorem getD_mem {α : Type} : ∀ (l : List α) (n : Nat) (d : α),
    n < l.length → l.getD n d ∈ l := by
  intro l
  induction l with
  | nil => intro n d h; simp at h
  | cons a l ih =>
    intro n d h
    cases n with
    | zero => simp
    | succ n =>
      simp only [List.getD_cons_succ]
      exact List.mem_cons_of_mem a (ih n d (by simpa using h))

theorem lit_not_bracket {s : List Char} (h : (!s.contains '[') = true) :
    '[' ∉ s := by
  simpa using h

theorem getD_fst : ∀ (l : List (List Char × List Char)) (i : Nat)
    (d : List Char × List Char), i < l.length →
    (l.getD i d).1 = (l.map Prod.fst).getD i d.1 := by
  intro l
  induction l with
  | nil => intro i d h; simp at h
  | cons p l ih =>
    intro i d h
    cases i with
    | zero => simp
    | succ i =>
      simp only [List.getD_cons_succ, List.map_cons]
      exact ih i d (by simpa using h)

theorem replace_assemble
    (reps : List (List Char × List Char))
    (hKeys : ∀ i, i < reps.length → bracketedB (reps.getD i ([], [])).1 = true)
    (hDist : ∀ i j, i < reps.length → j < reps.length → i ≠ j →
      (reps.getD i ([], [])).1 ≠ (reps.getD j ([], [])).1)
    (hVals : ∀ i, i < reps.length → '[' ∉ (reps.getD i ([], [])).2)
    (j : Nat) (hj : j < reps.length) (done : Nat → Bool) :
    ∀ cs : List Chunk, (∀ c ∈ cs, chunkOkB reps.length c = true) →
      replaceAll (reps.getD j ([], [])).1 (reps.getD j ([], [])).2
          (assemble reps done cs)
        = assemble reps (setDone j done) cs := by
  intro cs
  induction cs with
  | nil => intro _; rfl
  | cons c cs ih =>
    intro hcs
    have hc := hcs c (List.mem_cons_self c cs)
    have hcs' : ∀ x ∈ cs, chunkOkB reps.length x = true :=
      fun x hx => hcs x (List.mem_cons_of_mem c hx)
    cases c with
    | lit s =>
      have hs : '[' ∉ s := lit_not_bracket (by simpa [chunkOkB] using hc)
      show replaceAll _ _ (s ++ assemble reps done cs) =
        s ++ assemble reps (setDone j done) cs
      rw [replaceAll_lit _ _ (bracketedB_head _ (hKeys j hj)) s _ hs, ih hcs']
    | key i =>
      have hi : i < reps.length := by simpa [chunkOkB] using hc
      show replaceAll _ _ (chunkText reps done (Chunk.key i) ++ assemble reps done cs) =
        chunkText reps (setDone j done) (Chunk.key i) ++ assemble reps (setDone j done) cs
      by_cases hdone : done i = true
      · have hnew : setDone j done i = true := by
          simp only [setDone]
          by_cases hij : i = j <;> simp [hij, hdone]
        rw [show chunkText reps done (Chunk.key i) = (reps.getD i ([], [])).2 by
              simp [chunkText, hdone],
            show chunkText reps (setDone j done) (Chunk.key i) = (reps.getD i ([], [])).2 by
              simp [chunkText, hnew],
            replaceAll_lit _ _ (bracketedB_head _ (hKeys j hj)) _ _ (hVals i hi),
            ih hcs']
      · have hdone' : done i = false := by
          cases hq : done i with
          | true => exact absurd hq hdone
          | false => rfl
        by_cases hij : i = j
        · subst hij
          rw [show chunkText reps done (Chunk.key i) = (reps.getD i ([], [])).1 by
                simp [chunkText, hdone'],
              show chunkText reps (setDone i done) (Chunk.key i) = (reps.getD i ([], [])).2 by
                simp [chunkText, setDone],
              replaceAll_head_match _ _ _ (bracketedB_ne_nil _ (hKeys i hi)),
              ih hcs']
        · have hnew : setDone j done i = false := by
            simp [setDone, hij, hdone']
          rw [show chunkText reps done (Chunk.key i) = (reps.getD i ([], [])).1 by
                simp [chunkText, hdone'],
              show chunkText reps (setDone j done) (Chunk.key i) = (reps.getD i ([], [])).1 by
                simp [chunkText, hnew],
              replaceAll_other_key _ _ _ (hKeys j hj) (hKeys i hi)
                (hDist j i hj hi (fun hh => hij hh.symm)) _,
              ih hcs']

theorem applyOrder_assemble
    (reps : List (List Char × List Char))
    (hKeys : ∀ i, i < reps.length → bracketedB (reps.getD i ([], [])).1 = true)
    (hDist : ∀ i j, i < reps.length → j < reps.length → i ≠ j →
      (reps.getD i ([], [])).1 ≠ (reps.getD j ([], [])).1)
    (hVals : ∀ i, i < reps.length → '[' ∉ (reps.getD i ([], [])).2)
    (hDollar : ∀ i, i < reps.length → '$' ∉ (reps.getD i ([], [])).2) :
    ∀ order : List Nat, (∀ j ∈ order, j < reps.length) →
      ∀ (done : Nat → Bool) (cs : List Chunk),
        (∀ c ∈ cs, chunkOkB reps.length c = true) →
        applyOrder reps order (assemble reps done cs) =
          assemble reps (order.foldl (fun d j => setDone j d) done) cs := by
  intro order
  induction order with
  | nil => intro _ done cs _; rfl
  | cons j order ih =>
    intro horder done cs hcs
    have hj : j < reps.length := horder j (List.mem_cons_self j order)
    have step : jsReplace (reps.getD j ([], [])).1 (reps.getD j ([], [])).2
        (assemble reps done cs) = assemble reps (setDone j done) cs := by
      rw [jsReplace_eq_replaceAll _ _ _ (hDollar j hj)]
      exact replace_assemble reps hKeys hDist hVals j hj done cs hcs
    show applyOrder reps order
        (jsReplace (reps.getD j ([], [])).1 (reps.getD j ([], [])).2
          (assemble reps done cs)) = _
    rw [step]
    exact ih (fun x hx => horder x (List.mem_cons_of_mem j hx)) (setDone j done) cs hcs

theorem assemble_congr (reps : List (List Char × List Char))
    (d d' : Nat → Bool) (h : ∀ i, d i = d' i) :
    ∀ cs : List Chunk, assemble reps d cs = assemble reps d' cs := by
  intro cs
  induction cs with
  | nil => rfl
  | cons c cs ih =>
    cases c with
    | lit s => simp [assemble, chunkText, ih]
    | key i => simp [assemble, chunkText, h i, ih]

theorem foldl_setDone (order : List Nat) : ∀ (done : Nat → Bool) (i : Nat),
    (order.foldl (fun d j => setDone j d) done) i = (done i || order.contains i) := by
  induction order with
  | nil => intro done i; simp
  | cons j order ih =>
    intro done i
    show (order.foldl (fun d j => setDone j d) (setDone j done)) i = _
    rw [ih]
    by_cases hij : i = j
    · subst hij
      simp [setDone, List.contains]
    · simp only [setDone, if_neg hij]
      have : (List.contains (j :: order) i) = (i == j || order.contains i) := rfl
      rw [this]
      have hbeq : (i == j) = false := by
        simp [hij]
      simp [hbeq]

/-!
## Lemmas about the renderer
-/

theorem renderDoc_append : ∀ (ts us : List Tok) (c : Nat),
    renderDoc (ts ++ us) c =
      ((renderDoc ts c).1 ++ (renderDoc us (renderDoc ts c).2).1,
        (renderDoc us (renderDoc ts c).2).2) := by
  intro ts
  induction ts with
  | nil => intro us c; simp [renderDoc]
  | cons t ts ih => intro us c; simp [renderDoc, ih, List.append_assoc]

theorem renderTok_snd (t : Tok) (c : Nat) :
    (renderTok t c).2 = if isH2 t then (c + 1) % 4 else c := by
  cases t with
  | heading d inline =>
    by_cases hd : d = 2 <;> simp [renderTok, isH2, hd, headingColors]
  | paragraph s => simp [renderTok, isH2]
  | hr => simp [renderTok, isH2]
  | blockquote q => simp [renderTok, isH2]

theorem countH2_cons (t : Tok) (ts : List Tok) :
    countH2 (t :: ts) = (if isH2 t then 1 else 0) + countH2 ts := by
  simp [countH2, List.countP_cons]
  omega

theorem renderDoc_counter : ∀ (ts : List Tok) (c : Nat), c < 4 →
    (renderDoc ts c).2 = (c + countH2 ts) % 4 := by
  intro ts
  induction ts with
  | nil =>
    intro c hc
    simp [renderDoc, countH2, Nat.mod_eq_of_lt hc]
  | cons t ts ih =>
    intro c hc
    have hsnd : (renderDoc (t :: ts) c).2 = (renderDoc ts (renderTok t c).2).2 := by
      simp [renderDoc]
    rw [hsnd, renderTok_snd, countH2_cons]
    by_cases ht : isH2 t = true
    · rw [if_pos ht, if_pos ht, ih _ (Nat.mod_lt _ (by norm_num))]
      omega
    · rw [if_neg ht, if_neg ht, ih _ hc]
      omega

/-!
## Lemmas about trimming and word counting
-/

theorem trimR_append (x y : List Char) :
    trimR (x ++ y) = if trimR y = [] then trimR x else x ++ trimR y := by
  induction x with
  | nil =>
    by_cases h : trimR y = [] <;> simp [h, trimR]
  | cons c x ih =>
    simp only [List.cons_append, trimR]
    simp only [List.append_eq]
    rw [ih]
    by_cases hy : trimR y = []
    · simp [hy]
    · have hne : x ++ trimR y ≠ [] := by simp [hy]
      simp [hy, hne]

theorem trimR_append_ne (x y : List Char) (hy : trimR y ≠ []) :
    trimR (x ++ y) = x ++ trimR y := by
  rw [trimR_append]
  simp [hy]

theorem countRunsAux_dropWhile : ∀ s : List Char,
    countRunsAux false (s.dropWhile isWs) = countRunsAux false s := by
  intro s
  induction s with
  | nil => rfl
  | cons c rest ih =>
    by_cases hc : isWs c = true
    · simp [List.dropWhile_cons, hc, ih, countRunsAux]
    · simp [List.dropWhile_cons, hc, countRunsAux]

theorem trimR_nil_countRuns : ∀ s : List Char, trimR s = [] →
    ∀ b, countRunsAux b s = 0 := by
  intro s
  induction s with
  | nil => intro _ b; rfl
  | cons c rest ih =>
    intro h b
    by_cases hcond : trimR rest = [] ∧ isWs c = true
    · simp [countRunsAux, hcond.2, ih hcond.1]
    · rw [trimR, if_neg hcond] at h
      exact absurd h (by simp)

theorem countRunsAux_trimR : ∀ s : List Char, ∀ b, countRunsAux b (trimR s) = countRunsAux b s := by
  intro s
  induction s with
  | nil => intro b; rfl
  | cons c rest ih =>
    intro b
    by_cases hcond : trimR rest = [] ∧ isWs c = true
    · rw [trimR, if_pos hcond]
      simp [countRunsAux, hcond.2, trimR_nil_countRuns rest hcond.1]
    · rw [trimR, if_neg hcond]
      by_cases hc : isWs c = true
      · simp [countRunsAux, hc, ih]
      · simp [countRunsAux, hc, ih]

theorem countRuns_jsTrim (s : List Char) : countRuns (jsTrim s) = countRuns s := by
  show countRunsAux false (trimR (s.dropWhile isWs)) = countRunsAux false s
  rw [countRunsAux_trimR, countRunsAux_dropWhile]

theorem jsTrim_nil_countRuns (s : List Char) (h : jsTrim s = []) :
    countRuns s = 0 := by
  rw [← countRuns_jsTrim, h]
  rfl

theorem countRuns_pos : ∀ s : List Char, jsTrim s ≠ [] → 1 ≤ countRuns s := by
  intro s
  induction s with
  | nil => intro h; exact absurd rfl h
  | cons c rest ih =>
    intro h
    by_cases hc : isWs c = true
    · have hj : jsTrim (c :: rest) = jsTrim rest := by
        simp [jsTrim, List.dropWhile_cons, hc]
      have hcount : countRuns (c :: rest) = countRuns rest := by
        simp [countRuns, countRunsAux, hc]
      rw [hcount]
      exact ih (by rw [← hj]; exact h)
    · have : countRuns (c :: rest) = 1 + countRunsAux true rest := by
        simp [countRuns, countRunsAux, hc]
      omega

/-!
## Lemmas about the date split
-/

theorem splitOnDashAux_no : ∀ (y acc : List Char), '-' ∉ y →
    splitOnDashAux acc y = [acc.reverse ++ y] := by
  intro y
  induction y with
  | nil => intro acc _; simp [splitOnDashAux]
  | cons c y ih =>
    intro acc h
    rw [List.mem_cons] at h
    push_neg at h
    have hc : ¬ c = '-' := fun hh => h.1 hh.symm
    rw [splitOnDashAux, if_neg hc, ih _ h.2]
    simp

theorem splitOnDashAux_append : ∀ (y acc r : List Char), '-' ∉ y →
    splitOnDashAux acc (y ++ '-' :: r) = (acc.reverse ++ y) :: splitOnDashAux [] r := by
  intro y
  induction y with
  | nil => intro acc r _; simp [splitOnDashAux]
  | cons c y ih =>
    intro acc r h
    rw [List.mem_cons] at h
    push_neg at h
    have hc : ¬ c = '-' := fun hh => h.1 hh.symm
    rw [List.cons_append, splitOnDashAux, if_neg hc, ih _ r h.2]
    simp

theorem dateForPath_fields (y m d : List Char)
    (hy : '-' ∉ y) (hm : '-' ∉ m) (hd : '-' ∉ d) :
    dateForPath (y ++ '-' :: (m ++ '-' :: d)) = d ++ '-' :: (m ++ '-' :: y) := by
  show joinWith ['-'] (splitOnDashAux [] (y ++ '-' :: (m ++ '-' :: d))).reverse = _
  rw [splitOnDashAux_append y [] _ hy, splitOnDashAux_append m [] d hm,
    splitOnDashAux_no d [] hd]
  simp [joinWith]

/-!
## Claim theorems
-/

/-- C5: every paragraph whose rendered inline content begins (after
trimming) with the image-wrapper marker is emitted with the paragraph
wrapper suppressed; in particular a paragraph whose content is a rendered
image produces output identical to the raw image-wrapper markup, with no
enclosing paragraph tag; every other paragraph is wrapped in the spacing
markup. -/
theorem claim_C5_paragraph_suppression :
    (∀ inline : List Char, imgMarker.isPrefixOf (jsTrim inline) = true →
      renderParagraph inline = inline)
    ∧ (∀ href text : List Char,
        renderParagraph (renderImage href text) = renderImage href text)
    ∧ (∀ inline : List Char, imgMarker.isPrefixOf (jsTrim inline) = false →
      renderParagraph inline =
        "<p class=\"mb-6\">".data ++ inline ++ "</p>\n".data) := by
  refine ⟨?_, ?_, ?_⟩
  · intro inline h
    simp [renderParagraph, h]
  · intro href text
    have hshape : renderImage href text = imgMarker ++
        ("\n            <img src=\"".data ++ (href ++ ("\" alt=\"".data ++
          (text ++ "\" class=\"w-full max-w-3xl rounded-lg shadow-lg\" />\n        </div>\n".data)))) := by
      simp [renderImage, List.append_assoc]
    have htail :
        trimR "\" class=\"w-full max-w-3xl rounded-lg shadow-lg\" />\n        </div>\n".data ≠ [] := by
      decide
    have hrest : trimR ("\n            <img src=\"".data ++ (href ++ ("\" alt=\"".data ++
        (text ++ "\" class=\"w-full max-w-3xl rounded-lg shadow-lg\" />\n        </div>\n".data)))) ≠ [] := by
      have hassoc : "\n            <img src=\"".data ++ (href ++ ("\" alt=\"".data ++
          (text ++ "\" class=\"w-full max-w-3xl rounded-lg shadow-lg\" />\n        </div>\n".data)))
          = ("\n            <img src=\"".data ++ (href ++ ("\" alt=\"".data ++ text))) ++
            "\" class=\"w-full max-w-3xl rounded-lg shadow-lg\" />\n        </div>\n".data := by
        simp [List.append_assoc]
      rw [hassoc, trimR_append_ne _ _ htail]
      simp [htail]
    have hdrop : ∀ R : List Char, List.dropWhile isWs (imgMarker ++ R) = imgMarker ++ R := by
      intro R
      have hcons : imgMarker ++ R =
          '<' :: ("div class=\"my-8 flex justify-center\">".data ++ R) := rfl
      rw [hcons, List.dropWhile_cons]
      have hws : isWs '<' = false := by decide
      rw [hws]
      simp
    have hj : jsTrim (renderImage href text) = imgMarker ++
        trimR ("\n            <img src=\"".data ++ (href ++ ("\" alt=\"".data ++
          (text ++ "\" class=\"w-full max-w-3xl rounded-lg shadow-lg\" />\n        </div>\n".data)))) := by
      rw [hshape]
      show trimR (List.dropWhile isWs (imgMarker ++ _)) = _
      rw [hdrop, trimR_append_ne _ _ hrest]
    have hcond : imgMarker.isPrefixOf (jsTrim (renderImage href text)) = true := by
      rw [hj]
      exact isPrefixOf_append_self imgMarker _
    simp [renderParagraph, hcond]
  · intro inline h
    simp [renderParagraph, h]

/-- Witness for C5 at concrete inputs: a paragraph holding a rendered
image is passed through unwrapped, an ordinary paragraph is wrapped. -/
theorem claim_C5_witness :
    renderParagraph (renderImage "u".data "a".data) = renderImage "u".data "a".data
    ∧ renderParagraph "hello".data =
      "<p class=\"mb-6\">".data ++ "hello".data ++ "</p>\n".data :=
  ⟨claim_C5_paragraph_suppression.2.1 "u".data "a".data,
    claim_C5_paragraph_suppression.2.2 "hello".data (by decide)⟩

/-- C4: heading color assignment cycles with period 4: starting a render
pass from counter 0, a depth-2 heading preceded by `i` depth-2 headings
receives palette entry `i mod 4` and advances the counter to
`(i + 1) mod 4`; headings at any other depth are rendered with marked's
default markup, which carries no palette class, and leave the counter
unchanged.  The pass itself starts from counter 0 (the generator resets
the global index before each run). -/
theorem claim_C4_heading_color_cycle (pre post : List Tok) (txt : List Char)
    (i : Nat) (hpre : countH2 pre = i) :
    (renderDoc (pre ++ Tok.heading 2 txt :: post) 0).1 =
      (renderDoc pre 0).1 ++
        (h2Html (headingColors.getD (i % 4) []) txt ++
          (renderDoc post ((i + 1) % 4)).1)
    ∧ (∀ (d : Nat) (t : List Char) (c : Nat), d ≠ 2 →
        renderTok (Tok.heading d t) c = (defaultHeading d t, c)) := by
  constructor
  · have happ := renderDoc_append pre (Tok.heading 2 txt :: post) 0
    have hc2 : (renderDoc pre 0).2 = i % 4 := by
      have := renderDoc_counter pre 0 (by norm_num)
      simpa [hpre] using this
    rw [happ]
    simp only [hc2]
    have hstep : renderTok (Tok.heading 2 txt) (i % 4) =
        (h2Html (headingColors.getD (i % 4) []) txt, (i % 4 + 1) % 4) := by
      simp [renderTok, headingColors]
    have hmod : (i % 4 + 1) % 4 = (i + 1) % 4 := by omega
    simp [renderDoc, hstep, hmod]
  · intro d t c hd
    simp [renderTok, hd]

/-- Witness for C4: in a pass over two depth-2 headings separated by a
horizontal rule, the second heading (index 1) receives palette entry
`1 mod 4`. -/
theorem claim_C4_witness :
    (renderDoc ([Tok.heading 2 "a".data, Tok.hr] ++ Tok.heading 2 "b".data :: []) 0).1 =
      (renderDoc [Tok.heading 2 "a".data, Tok.hr] 0).1 ++
        (h2Html (headingColors.getD (1 % 4) []) "b".data ++
          (renderDoc [] ((1 + 1) % 4)).1) :=
  (claim_C4_heading_color_cycle [Tok.heading 2 "a".data, Tok.hr] []
    "b".data 1 (by decide)).1

/-- C6: reading time is the whitespace-separated token count of the raw
body divided by 200 and rounded up, with a minimum of 1: exactly 200
tokens give 1 minute, 201 give 2, and an empty body still gives 1. -/
theorem claim_C6_reading_time :
    (∀ s : List Char, calculateReadingTime s = max 1 ((countRuns s + 199) / 200))
    ∧ (∀ s : List Char, countRuns s = 200 → calculateReadingTime s = 1)
    ∧ (∀ s : List Char, countRuns s = 201 → calculateReadingTime s = 2)
    ∧ (∀ s : List Char, countRuns s = 0 → calculateReadingTime s = 1) := by
  have main : ∀ s : List Char,
      calculateReadingTime s = max 1 ((countRuns s + 199) / 200) := by
    intro s
    by_cases h : jsTrim s = []
    · have h0 : countRuns s = 0 := jsTrim_nil_countRuns s h
      simp [calculateReadingTime, jsWordCount, h, h0]
    · have h1 : 1 ≤ countRuns s := countRuns_pos s h
      have hw : jsWordCount s = countRuns s := by
        simp [jsWordCount, h, countRuns_jsTrim]
      simp only [calculateReadingTime, hw]
      omega
  refine ⟨main, ?_, ?_, ?_⟩ <;> intro s h <;> rw [main s, h] <;> decide

/-- Witness for C6: bodies of exactly 200, 201 and 0 words give 1, 2 and
1 minutes. -/
theorem claim_C6_witness :
    calculateReadingTime (List.flatten (List.replicate 200 ('a' :: [' ']))) = 1
    ∧ calculateReadingTime (List.flatten (List.replicate 201 ('a' :: [' ']))) = 2
    ∧ calculateReadingTime [] = 1 :=
  ⟨claim_C6_reading_time.2.1 _ (by decide),
    claim_C6_reading_time.2.2.1 _ (by decide),
    claim_C6_reading_time.2.2.2 [] (by decide)⟩

/-- C7: the path-segment date is the pure field reorder of a
`YYYY-MM-DD` string into `DD-MM-YYYY`, and the asset URLs are the fixed
base path, the reordered segment and the per-kind extension. -/
theorem claim_C7_date_reorder (y m d : List Char)
    (hy : '-' ∉ y) (hm : '-' ∉ m) (hd : '-' ∉ d) :
    dateForPath (y ++ '-' :: (m ++ '-' :: d)) = d ++ '-' :: (m ++ '-' :: y)
    ∧ (∀ date : List Char, bannerUrl date =
        "/assets/images/banners/".data ++ (dateForPath date ++ ".png".data))
    ∧ (∀ date : List Char, thumbnailUrl date =
        "/assets/images/thumbnails/".data ++ (dateForPath date ++ ".webp".data)) :=
  ⟨dateForPath_fields y m d hy hm hd,
    fun date => by simp [bannerUrl, List.append_assoc],
    fun date => by simp [thumbnailUrl, List.append_assoc]⟩

/-- Witness for C7: `2025-10-21` becomes `21-10-2025`. -/
theorem claim_C7_witness :
    dateForPath ("2025".data ++ '-' :: ("10".data ++ '-' :: "21".data)) =
      "21".data ++ '-' :: ("10".data ++ '-' :: "2025".data) :=
  (claim_C7_date_reorder "2025".data "10".data "21".data
    (by decide) (by decide) (by decide)).1

/-- C9: a render pass is a pure function of the token sequence and the
freshly reset color counter: its output does not depend on the global
counter value left behind by any earlier pass, and running the pass again
right after produces the identical output string. -/
theorem claim_C9_render_deterministic (ts : List Tok) (g g' : Nat) :
    (runPass ts g).1 = (runPass ts g').1
    ∧ (runPass ts g).1 = (runPass ts (runPass ts g).2).1 :=
  ⟨rfl, rfl⟩

/-- C1 counterexample: the source lists `id` among `requiredFields`
(`generate.js` line 89), so a post carrying title, date, category and
excerpt but no id does not proceed to rendering: generation stops with
`id` reported missing, refuting the claim that the stable identifier is
optional. -/
theorem claim_C1_counterexample :
    generate
      { id := none,
        title := some (JSVal.str "T".data),
        date := some (JSVal.str "2025-10-21".data),
        category := some (JSVal.str "tech".data),
        excerpt := some (JSVal.str "E".data) }
      "b".data "h".data "t".data
      = GenResult.error [Field.id] := by
  decide

/-- C1 (amended): all five fields id, title, date, category and excerpt
are required; when one or more are absent (or falsy) the generator stops
before any substitution and reports exactly those fields, in source
order; when all five are present and truthy the run proceeds to
substitution. -/
theorem claim_C1_metadata_validation (md : Metadata) (body html tmpl : List Char) :
    (missingFields md ≠ [] →
      generate md body html tmpl = GenResult.error (missingFields md))
    ∧ (missingFields md = [] →
      generate md body html tmpl =
        GenResult.ok (applyReplacements tmpl (buildReplacements md body html)))
    ∧ (∀ f : Field, f ∈ missingFields md ↔
        f ∈ requiredFields ∧ jsFalsy (fieldVal md f) = true) := by
  refine ⟨?_, ?_, ?_⟩
  · intro h
    simp [generate, h]
  · intro h
    simp [generate, h]
  · intro f
    simp [missingFields, List.mem_filter]

/-- Witness for C1 (amended): a post missing its date stops with `date`
reported; a complete post proceeds to substitution. -/
theorem claim_C1_witness :
    generate
      { id := some (JSVal.str "x".data),
        title := some (JSVal.str "T".data),
        date := none,
        category := some (JSVal.str "tech".data),
        excerpt := some (JSVal.str "E".data) }
      "b".data "h".data "t".data
      = GenResult.error (missingFields
        { id := some (JSVal.str "x".data),
          title := some (JSVal.str "T".data),
          date := none,
          category := some (JSVal.str "tech".data),
          excerpt := some (JSVal.str "E".data) })
    ∧ generate
      { id := some (JSVal.str "x".data),
        title := some (JSVal.str "T".data),
        date := some (JSVal.str "2025-10-21".data),
        category := some (JSVal.str "tech".data),
        excerpt := some (JSVal.str "E".data) }
      "b".data "h".data "[CATEGORY]".data
      = GenResult.ok (applyReplacements "[CATEGORY]".data
        (buildReplacements
          { id := some (JSVal.str "x".data),
            title := some (JSVal.str "T".data),
            date := some (JSVal.str "2025-10-21".data),
            category := some (JSVal.str "tech".data),
            excerpt := some (JSVal.str "E".data) }
          "b".data "h".data)) :=
  ⟨(claim_C1_metadata_validation _ "b".data "h".data "t".data).1 (by decide),
    (claim_C1_metadata_validation _ "b".data "h".data "[CATEGORY]".data).2.1 (by decide)⟩

/-- C10: the presence check tests JavaScript truthiness rather than mere
existence, so a required field that is present but falsy (empty string,
0, false) is classified as missing and generation stops with that field
reported. -/
theorem claim_C10_falsy_field_missing (md : Metadata) (f : Field) (v : JSVal)
    (hf : f ∈ requiredFields) (hv : fieldVal md f = some v)
    (ht : truthy v = false) :
    f ∈ missingFields md
    ∧ ∀ body html tmpl : List Char,
        generate md body html tmpl = GenResult.error (missingFields md) := by
  have hmem : f ∈ missingFields md := by
    simp [missingFields, List.mem_filter, hf, jsFalsy, hv, ht]
  refine ⟨hmem, ?_⟩
  intro body html tmpl
  have hne : missingFields md ≠ [] := List.ne_nil_of_mem hmem
  simp [generate, hne]

/-- Witness for C10: a post whose excerpt is the empty string stops with
`excerpt` among the reported missing fields. -/
theorem claim_C10_witness :
    Field.excerpt ∈ missingFields
      { id := some (JSVal.str "x".data),
        title := some (JSVal.str "T".data),
        date := some (JSVal.str "2025-10-21".data),
        category := some (JSVal.str "tech".data),
        excerpt := some (JSVal.str []) }
    ∧ generate
      { id := some (JSVal.str "x".data),
        title := some (JSVal.str "T".data),
        date := some (JSVal.str "2025-10-21".data),
        category := some (JSVal.str "tech".data),
        excerpt := some (JSVal.str []) }
      "b".data "h".data "t".data
      = GenResult.error (missingFields
        { id := some (JSVal.str "x".data),
          title := some (JSVal.str "T".data),
          date := some (JSVal.str "2025-10-21".data),
          category := some (JSVal.str "tech".data),
          excerpt := some (JSVal.str []) }) :=
  have h := claim_C10_falsy_field_missing
    { id := some (JSVal.str "x".data),
      title := some (JSVal.str "T".data),
      date := some (JSVal.str "2025-10-21".data),
      category := some (JSVal.str "tech".data),
      excerpt := some (JSVal.str []) }
    Field.excerpt (JSVal.str []) (by decide) (by decide) (by decide)
  ⟨h.1, h.2 "b".data "h".data "t".data⟩

/-- Helper for C8: a fold of no-occurrence passes leaves the template
unchanged. -/
theorem applyReplacements_no_occur (t : List Char) :
    ∀ reps : List (List Char × List Char),
      (∀ p ∈ reps, hasOccur p.1 t = false) →
      applyReplacements t reps = t := by
  intro reps
  induction reps with
  | nil => intro _; rfl
  | cons p reps ih =>
    intro h
    show applyReplacements (jsReplace p.1 p.2 t) reps = t
    rw [jsReplace_no_occur p.1 p.2 t (h p (List.mem_cons_self p reps))]
    exact ih (fun q hq => h q (List.mem_cons_of_mem p hq))

/-- C8: any text in the template that is not an occurrence of one of the
map's keys is left untouched by the substitution loop — in particular a
template in which no key occurs at all (for example one holding only
`[UNKNOWN_TOKEN]`) is returned unchanged — and a key with no occurrence
in the template is silently a no-op, not an error. -/
theorem claim_C8_unknown_tokens_untouched (md : Metadata) (body html t : List Char)
    (h : ∀ p ∈ buildReplacements md body html, hasOccur p.1 t = false) :
    applyReplacements t (buildReplacements md body html) = t
    ∧ (∀ pat rep u : List Char, hasOccur pat u = false → jsReplace pat rep u = u) :=
  ⟨applyReplacements_no_occur t _ h,
    fun pat rep u hu => jsReplace_no_occur pat rep u hu⟩

/-- Witness for C8: a template holding only an unknown bracketed token is
returned unchanged by the full substitution pass. -/
theorem claim_C8_witness :
    applyReplacements "x [UNKNOWN_TOKEN] y".data
      (buildReplacements
        { id := some (JSVal.str "x".data),
          title := some (JSVal.str "T".data),
          date := some (JSVal.str "2025-10-21".data),
          category := some (JSVal.str "tech".data),
          excerpt := some (JSVal.str "E".data) }
        "b".data "h".data)
      = "x [UNKNOWN_TOKEN] y".data :=
  (claim_C8_unknown_tokens_untouched _ "b".data "h".data
    "x [UNKNOWN_TOKEN] y".data (by decide)).1

/-- C2 counterexample: with a title of `$&`, the JavaScript string
replacement interprets the dollar sequence and inserts the matched token
instead of the literal title, so the substituted document is
`[POST_TITLE]` rather than `$&`: the replacement value is not inserted
verbatim. -/
theorem claim_C2_counterexample :
    generate
      { id := some (JSVal.str "x".data),
        title := some (JSVal.str "$&".data),
        date := some (JSVal.str "2025-10-21".data),
        category := some (JSVal.str "c".data),
        excerpt := some (JSVal.str "e".data) }
      "w".data "h".data "[POST_TITLE]".data
      = GenResult.ok "[POST_TITLE]".data
    ∧ "[POST_TITLE]".data ≠ "$&".data := by
  constructor
  · decide
  · decide

/-- C2 (amended): every key of the placeholder map is a bracketed token
and matching is exact literal text; every occurrence of the key in the
template is replaced, and the replacement value is inserted verbatim
provided it contains no dollar sign (a `$`-sequence in the value is
interpreted by the JavaScript replacement rules instead of being copied
verbatim).  Stated for a template built of bracket-free segments with the
key between consecutive segments, so a template with three occurrences
has all three replaced. -/
theorem claim_C2_total_literal_replacement
    (pat v : List Char) (ss : List (List Char))
    (hpat : bracketedB pat = true) (hv : '$' ∉ v)
    (hss : ∀ s ∈ ss, '[' ∉ s)
    (md : Metadata) (body html : List Char) :
    jsReplace pat v (joinWith pat ss) = joinWith v ss
    ∧ ∀ p ∈ buildReplacements md body html, bracketedB p.1 = true := by
  constructor
  · rw [jsReplace_eq_replaceAll pat v _ hv]
    exact replaceAll_joinWith pat v hpat ss hss
  · intro p hp
    have hmem : p.1 ∈ (buildReplacements md body html).map Prod.fst :=
      List.mem_map_of_mem Prod.fst hp
    have hmap : (buildReplacements md body html).map Prod.fst =
        ["[POST_TITLE]".data, "[YYYY-MM-DD]".data, "[POST_DATE_FORMATTED]".data,
          "[CATEGORY]".data, "[EXCERPT]".data, "[READING_TIME]".data,
          "[CONVERTED_HTML_CONTENT]".data, "[POST_URL]".data, "[BANNER_URL]".data] := rfl
    rw [hmap] at hmem
    simp only [List.mem_cons, List.not_mem_nil, or_false] at hmem
    rcases hmem with h | h | h | h | h | h | h | h | h <;> rw [h] <;> decide

/-- Witness for C2 (amended): a template with three occurrences of
`[POST_TITLE]` has all three replaced with the value. -/
theorem claim_C2_witness :
    jsReplace "[POST_TITLE]".data "X".data
      (joinWith "[POST_TITLE]".data ["a ".data, " b ".data, " c ".data, " d".data]) =
    joinWith "X".data ["a ".data, " b ".data, " c ".data, " d".data] :=
  (claim_C2_total_literal_replacement "[POST_TITLE]".data "X".data
    ["a ".data, " b ".data, " c ".data, " d".data]
    (by decide) (by decide) (by decide)
    { id := none, title := none, date := none, category := none, excerpt := none }
    [] []).1

/-- C3 counterexample: an excerpt whose text is the literal token
`[POST_TITLE]` makes the final document depend on the processing order of
the distinct keys, even though the two orders visit exactly the same
keys: processing `[EXCERPT]` after `[POST_TITLE]` leaves `[POST_TITLE]`
in the output, processing it before lets the injected token be replaced
by the title. -/
theorem claim_C3_counterexample :
    applyOrder
        (buildReplacements
          { id := some (JSVal.str "x".data),
            title := some (JSVal.str "T".data),
            date := some (JSVal.str "2025-10-21".data),
            category := some (JSVal.str "c".data),
            excerpt := some (JSVal.str "[POST_TITLE]".data) }
          "w".data "h".data)
        [0, 1, 2, 3, 4, 5, 6, 7, 8] "[EXCERPT]".data
      ≠ applyOrder
        (buildReplacements
          { id := some (JSVal.str "x".data),
            title := some (JSVal.str "T".data),
            date := some (JSVal.str "2025-10-21".data),
            category := some (JSVal.str "c".data),
            excerpt := some (JSVal.str "[POST_TITLE]".data) }
          "w".data "h".data)
        [4, 0, 1, 2, 3, 5, 6, 7, 8] "[EXCERPT]".data
    ∧ (∀ j ∈ ([0, 1, 2, 3, 4, 5, 6, 7, 8] : List Nat),
        j ∈ ([4, 0, 1, 2, 3, 5, 6, 7, 8] : List Nat))
    ∧ (∀ j ∈ ([4, 0, 1, 2, 3, 5, 6, 7, 8] : List Nat),
        j ∈ ([0, 1, 2, 3, 4, 5, 6, 7, 8] : List Nat)) := by
  refine ⟨?_, ?_, ?_⟩
  · decide
  · decide
  · decide

/-- C3 (amended): the substitution result is independent of the key
processing order whenever the template is a concatenation of bracket-free
literal segments and placeholder tokens and no replacement value contains
an opening bracket or a dollar sign; without those conditions (for
example a metadata value holding a key token) the order can matter. -/
theorem claim_C3_order_independence
    (md : Metadata) (body html : List Char)
    (cs : List Chunk) (o1 o2 : List Nat)
    (hv : ∀ p ∈ buildReplacements md body html, '[' ∉ p.2 ∧ '$' ∉ p.2)
    (hcs : ∀ c ∈ cs, chunkOkB 9 c = true)
    (h1 : ∀ j ∈ o1, j < 9)
    (h12 : ∀ j ∈ o1, j ∈ o2) (h21 : ∀ j ∈ o2, j ∈ o1) :
    applyOrder (buildReplacements md body html) o1
        (assemble (buildReplacements md body html) (fun _ => false) cs)
      = applyOrder (buildReplacements md body html) o2
        (assemble (buildReplacements md body html) (fun _ => false) cs) := by
  have hlen : (buildReplacements md body html).length = 9 := rfl
  have hmap : (buildReplacements md body html).map Prod.fst =
      ["[POST_TITLE]".data, "[YYYY-MM-DD]".data, "[POST_DATE_FORMATTED]".data,
        "[CATEGORY]".data, "[EXCERPT]".data, "[READING_TIME]".data,
        "[CONVERTED_HTML_CONTENT]".data, "[POST_URL]".data, "[BANNER_URL]".data] := rfl
  have hKeys : ∀ i, i < (buildReplacements md body html).length →
      bracketedB ((buildReplacements md body html).getD i ([], [])).1 = true := by
    intro i hi
    rw [getD_fst _ i _ hi, hmap]
    rw [hlen] at hi
    interval_cases i <;> decide
  have hDist : ∀ i j, i < (buildReplacements md body html).length →
      j < (buildReplacements md body html).length → i ≠ j →
      ((buildReplacements md body html).getD i ([], [])).1 ≠
        ((buildReplacements md body html).getD j ([], [])).1 := by
    intro i j hi hj hne
    rw [getD_fst _ i _ hi, getD_fst _ j _ hj, hmap]
    rw [hlen] at hi hj
    interval_cases i <;> interval_cases j <;> first | omega | decide
  have hVals : ∀ i, i < (buildReplacements md body html).length →
      '[' ∉ ((buildReplacements md body html).getD i ([], [])).2 := by
    intro i hi
    exact (hv _ (getD_mem _ i ([], []) hi)).1
  have hDollar : ∀ i, i < (buildReplacements md body html).length →
      '$' ∉ ((buildReplacements md body html).getD i ([], [])).2 := by
    intro i hi
    exact (hv _ (getD_mem _ i ([], []) hi)).2
  have h2 : ∀ j ∈ o2, j < 9 := fun j hj => h1 j (h21 j hj)
  rw [applyOrder_assemble _ hKeys hDist hVals hDollar o1 h1 _ cs hcs,
    applyOrder_assemble _ hKeys hDist hVals hDollar o2 h2 _ cs hcs]
  apply assemble_congr
  intro i
  rw [foldl_setDone, foldl_setDone]
  simp only [Bool.false_or]
  cases ho1 : o1.contains i with
  | true =>
    have : i ∈ o2 := h12 i (List.elem_iff.mp ho1)
    exact (List.elem_iff.mpr this).symm
  | false =>
    cases ho2 : o2.contains i with
    | true =>
      exfalso
      have hmem : i ∈ o1 := h21 i (List.elem_iff.mp ho2)
      have hc : o1.contains i = true := List.elem_iff.mpr hmem
      rw [ho1] at hc
      exact absurd hc (by simp)
    | false => rfl

/-- Witness for C3 (amended): over a structured template holding one
`[POST_TITLE]` token between bracket-free literals, the source order of
the nine keys and its reversal give the same document. -/
theorem claim_C3_witness :
    applyOrder
        (buildReplacements
          { id := some (JSVal.str "x".data),
            title := some (JSVal.str "T".data),
            date := some (JSVal.str "2025-10-21".data),
            category := some (JSVal.str "c".data),
            excerpt := some (JSVal.str "e".data) }
          "w".data "h".data)
        [0, 1, 2, 3, 4, 5, 6, 7, 8]
        (assemble (buildReplacements
          { id := some (JSVal.str "x".data),
            title := some (JSVal.str "T".data),
            date := some (JSVal.str "2025-10-21".data),
            category := some (JSVal.str "c".data),
            excerpt := some (JSVal.str "e".data) }
          "w".data "h".data) (fun _ => false)
          [Chunk.lit "x ".data, Chunk.key 0, Chunk.lit " y".data])
      = applyOrder
        (buildReplacements
          { id := some (JSVal.str "x".data),
            title := some (JSVal.str "T".data),
            date := some (JSVal.str "2025-10-21".data),
            category := some (JSVal.str "c".data),
            excerpt := some (JSVal.str "e".data) }
          "w".data "h".data)
        [8, 7, 6, 5, 4, 3, 2, 1, 0]
        (assemble (buildReplacements
          { id := some (JSVal.str "x".data),
            title := some (JSVal.str "T".data),
            date := some (JSVal.str "2025-10-21".data),
            category := some (JSVal.str "c".data),
            excerpt := some (JSVal.str "e".data) }
          "w".data "h".data) (fun _ => false)
          [Chunk.lit "x ".data, Chunk.key 0, Chunk.lit " y".data]) :=
  claim_C3_order_independence _ "w".data "h".data
    [Chunk.lit "x ".data, Chunk.key 0, Chunk.lit " y".data]
    [0, 1, 2, 3, 4, 5, 6, 7, 8] [8, 7, 6, 5, 4, 3, 2, 1, 0]
    (by decide) (by decide) (by decide) (by decide) (by decide)

end Kawaii

